import Mathlib

/-!
# Verification of the AR target-shooting core

Shallow embedding of the game-logic core of the repository
`linlin-xiaobao/linlin-xiaobao.github.io`: an AR target-shooting minigame in
which a hand-landmark stream drives an aim ray, a pinch gesture fires, and
targets spawn, advance and are retired by hit or by passing the player.

The source holds three near-duplicate implementations of the same loop:
* variant 1: `src/components/ARGame.tsx`, first half (`onResults`),
* variant 2: `src/components/ARGame.tsx`, second half (`loop`),
* variant 3: `src/unnamed/part_001` (`loop`), the canonical one embedded here.

The variants differ only in tuning constants (magnetism threshold, pinch
threshold, cooldown, miss depth) and in the ndc mapping of variant 2; the
embedding is parametrised by a `Config` record carrying those constants.

Numbers: the source works with JavaScript floats on small well-conditioned
values; the embedding uses `ℚ`.  `Math.hypot(dx, dy) < thr` is embedded as the
equivalent comparison `dx^2 + dy^2 < thr^2` of squares (both sides
nonnegative), so that everything stays inside `ℚ`.

Time: `Date.now()` timestamps are embedded as `ℤ` (milliseconds).
-/

namespace ARShooter

/-- A 3-component vector over `ℚ`, standing in for `THREE.Vector3`. -/
structure Vec3 where
  x : ℚ
  y : ℚ
  z : ℚ
deriving DecidableEq, Repr

/-- `a - b`, componentwise (`THREE.Vector3.subVectors`). -/
def Vec3.sub (a b : Vec3) : Vec3 := ⟨a.x - b.x, a.y - b.y, a.z - b.z⟩

/-- Dot product (`THREE.Vector3.dot`). -/
def Vec3.dot (a b : Vec3) : ℚ := a.x * b.x + a.y * b.y + a.z * b.z

/-- `a + s • d` (`THREE.Vector3.addScaledVector`). -/
def Vec3.addScaled (a d : Vec3) (s : ℚ) : Vec3 :=
  ⟨a.x + d.x * s, a.y + d.y * s, a.z + d.z * s⟩

/-- Squared distance between two points (`THREE.Vector3.distanceToSquared`). -/
def Vec3.distanceToSquared (a b : Vec3) : ℚ :=
  (a.x - b.x) ^ 2 + (a.y - b.y) ^ 2 + (a.z - b.z) ^ 2

/-- A world-space ray: origin and direction, standing in for `THREE.Ray`.
In the source the ray is produced by `raycaster.setFromCamera`, which
guarantees a unit direction; the embedding takes the ray as input. -/
structure Ray where
  origin : Vec3
  dir : Vec3
deriving DecidableEq, Repr

/-- `THREE.Ray.distanceSqToPoint`, translated from the three.js source:
the squared distance from `p` to the half-line, clamped at the origin when
the point projects behind the ray. -/
def Ray.distanceSqToPoint (r : Ray) (p : Vec3) : ℚ :=
  let directionDistance := (Vec3.sub p r.origin).dot r.dir
  if directionDistance < 0 then r.origin.distanceToSquared p
  else (r.origin.addScaled r.dir directionDistance).distanceToSquared p

/-- A live target.  The source keeps targets as scene-graph nodes
(`targetsRef.current`, an array of `THREE.Group`); `id` stands for JavaScript
object identity, `pos` for `.position` and `vel` for `.userData.velocity`.
`userData.active` is set to `true` at spawn and never cleared, so it is not
modelled. -/
structure Target where
  id : ℕ
  pos : Vec3
  vel : Vec3
deriving DecidableEq, Repr

/-- The persistent trigger state: `isTriggeredRef.current` and
`lastShotTimeRef.current` in the source. -/
structure TriggerState where
  isTriggered : Bool
  lastShotTime : ℤ
deriving DecidableEq, Repr

/-! ## Gesture trigger (src/unnamed/part_001 lines 289-304)

```
const triggerDist = Math.hypot(thumbTip.x - indexMCP.x, thumbTip.y - indexMCP.y);
const triggerThreshold = 0.08;
if (triggerDist < triggerThreshold) {
  if (!isTriggeredRef.current) {
     const now = Date.now();
     if (now - lastShotTimeRef.current > 250) {
       isShooting = true;
       lastShotTimeRef.current = now;
     }
     isTriggeredRef.current = true;
  }
} else {
  isTriggeredRef.current = false;
}
```

`dSq` is the squared pinch metric and `thrSq` the squared threshold
(`triggerDist < triggerThreshold` iff `dSq < thrSq`).  The step returns the
new state, the engage-edge bit (the body of `!isTriggeredRef.current` was
entered: the trigger-pull event before rate limiting) and the accepted-fire
bit (`isShooting`). -/
def triggerStep (thrSq : ℚ) (cd : ℤ) (s : TriggerState) (dSq : ℚ) (now : ℤ) :
    TriggerState × Bool × Bool :=
  if dSq < thrSq then
    if s.isTriggered then (s, false, false)
    else if cd < now - s.lastShotTime then (⟨true, now⟩, true, true)
    else (⟨true, s.lastShotTime⟩, true, false)
  else (⟨false, s.lastShotTime⟩, false, false)

/-- Run the trigger over a sequence of ticks; each tick supplies the squared
pinch metric and the current time.  Returns the final state and the per-tick
(edge, fired) outputs in order. -/
def triggerRun (thrSq : ℚ) (cd : ℤ) : TriggerState → List (ℚ × ℤ) → TriggerState × List (Bool × Bool)
  | s, [] => (s, [])
  | s, (d, t) :: rest =>
    let st := triggerStep thrSq cd s d t
    let cont := triggerRun thrSq cd st.1 rest
    (cont.1, st.2 :: cont.2)

/-- Number of accepted fire events in a trigger output trace. -/
def firedCount (outs : List (Bool × Bool)) : ℕ := outs.countP (fun o => o.2)

/-! ### Trigger trace lemmas -/

lemma triggerStep_not_engaged (thrSq : ℚ) (cd : ℤ) (s : TriggerState) (dSq : ℚ) (now : ℤ)
    (h : ¬ dSq < thrSq) :
    triggerStep thrSq cd s dSq now = (⟨false, s.lastShotTime⟩, false, false) := by
  simp [triggerStep, h]

lemma triggerStep_held (thrSq : ℚ) (cd : ℤ) (s : TriggerState) (dSq : ℚ) (now : ℤ)
    (hd : dSq < thrSq) (hs : s.isTriggered = true) :
    triggerStep thrSq cd s dSq now = (s, false, false) := by
  simp [triggerStep, hd, hs]

lemma triggerStep_edge (thrSq : ℚ) (cd : ℤ) (s : TriggerState) (dSq : ℚ) (now : ℤ)
    (hd : dSq < thrSq) (hs : s.isTriggered = false) :
    triggerStep thrSq cd s dSq now =
      (⟨true, if cd < now - s.lastShotTime then now else s.lastShotTime⟩,
       true, decide (cd < now - s.lastShotTime)) := by
  by_cases hc : cd < now - s.lastShotTime <;> simp [triggerStep, hd, hs, hc]

/-- While the trigger is held (`isTriggered = true`) and every tick stays
engaged, the trigger emits nothing and the state never changes. -/
lemma triggerRun_held (thrSq : ℚ) (cd : ℤ) :
    ∀ (l : List (ℚ × ℤ)) (s : TriggerState),
      s.isTriggered = true → (∀ p ∈ l, p.1 < thrSq) →
      triggerRun thrSq cd s l = (s, List.replicate l.length (false, false)) := by
  intro l
  induction l with
  | nil => intro s _ _; rfl
  | cons p rest ih =>
    intro s hs hl
    obtain ⟨d, t⟩ := p
    have hd : d < thrSq := hl (d, t) (List.mem_cons_self _ _)
    have hrest : ∀ q ∈ rest, q.1 < thrSq := fun q hq => hl q (List.mem_cons_of_mem _ hq)
    simp [triggerRun, triggerStep_held thrSq cd s d t hd hs, ih s hs hrest,
      List.replicate_succ]

/-- While every tick stays released, the trigger emits nothing; the flag is
cleared and the last-shot time is kept. -/
lemma triggerRun_released (thrSq : ℚ) (cd : ℤ) :
    ∀ (l : List (ℚ × ℤ)) (s : TriggerState),
      s.isTriggered = false → (∀ p ∈ l, ¬ p.1 < thrSq) →
      triggerRun thrSq cd s l = (s, List.replicate l.length (false, false)) := by
  intro l
  induction l with
  | nil => intro s _ _; rfl
  | cons p rest ih =>
    intro s hs hl
    obtain ⟨d, t⟩ := p
    have hd : ¬ d < thrSq := hl (d, t) (List.mem_cons_self _ _)
    have hrest : ∀ q ∈ rest, ¬ q.1 < thrSq := fun q hq => hl q (List.mem_cons_of_mem _ hq)
    have hstate : (⟨false, s.lastShotTime⟩ : TriggerState) = s := by
      cases s with
      | mk i l => simp at hs; simp [hs]
    simp [triggerRun, triggerStep_not_engaged thrSq cd s d t hd, hstate, ih s hs hrest,
      List.replicate_succ]

lemma triggerRun_cons (thrSq : ℚ) (cd : ℤ) (s : TriggerState) (d : ℚ) (t : ℤ)
    (rest : List (ℚ × ℤ)) :
    triggerRun thrSq cd s ((d, t) :: rest) =
      ((triggerRun thrSq cd (triggerStep thrSq cd s d t).1 rest).1,
       (triggerStep thrSq cd s d t).2 ::
         (triggerRun thrSq cd (triggerStep thrSq cd s d t).1 rest).2) := rfl

lemma triggerRun_cons_eq (thrSq : ℚ) (cd : ℤ) (s s1 s2 : TriggerState) (d : ℚ) (t : ℤ)
    (o : Bool × Bool) (rest : List (ℚ × ℤ)) (os : List (Bool × Bool))
    (h1 : triggerStep thrSq cd s d t = (s1, o))
    (h2 : triggerRun thrSq cd s1 rest = (s2, os)) :
    triggerRun thrSq cd s ((d, t) :: rest) = (s2, o :: os) := by
  rw [triggerRun_cons, h1]
  simp [h2]

lemma triggerRun_append (thrSq : ℚ) (cd : ℤ) :
    ∀ (l1 l2 : List (ℚ × ℤ)) (s : TriggerState),
      triggerRun thrSq cd s (l1 ++ l2) =
        ((triggerRun thrSq cd (triggerRun thrSq cd s l1).1 l2).1,
         (triggerRun thrSq cd s l1).2 ++ (triggerRun thrSq cd (triggerRun thrSq cd s l1).1 l2).2) := by
  intro l1
  induction l1 with
  | nil => intro l2 s; simp [triggerRun]
  | cons p rest ih =>
    intro l2 s
    obtain ⟨d, t⟩ := p
    simp [triggerRun, ih]

lemma triggerRun_append_eq (thrSq : ℚ) (cd : ℤ) (s s1 s2 : TriggerState)
    (l1 l2 : List (ℚ × ℤ)) (o1 o2 : List (Bool × Bool))
    (h1 : triggerRun thrSq cd s l1 = (s1, o1))
    (h2 : triggerRun thrSq cd s1 l2 = (s2, o2)) :
    triggerRun thrSq cd s (l1 ++ l2) = (s2, o1 ++ o2) := by
  rw [triggerRun_append, h1]
  simp [h2]

/-- An engaged run entered from a released state: the edge happens on the
first tick, fires there iff the cooldown has elapsed, and nothing happens on
the held remainder. -/
lemma triggerRun_cycle (thrSq : ℚ) (cd : ℤ) (s : TriggerState) (d1 : ℚ) (t1 : ℤ)
    (hold : List (ℚ × ℤ)) (hs : s.isTriggered = false) (hd1 : d1 < thrSq)
    (hhold : ∀ p ∈ hold, p.1 < thrSq) :
    triggerRun thrSq cd s ((d1, t1) :: hold) =
      (⟨true, if cd < t1 - s.lastShotTime then t1 else s.lastShotTime⟩,
       (true, decide (cd < t1 - s.lastShotTime)) :: List.replicate hold.length (false, false)) := by
  have hstep := triggerStep_edge thrSq cd s d1 t1 hd1 hs
  have hheld := triggerRun_held thrSq cd hold
    ⟨true, if cd < t1 - s.lastShotTime then t1 else s.lastShotTime⟩ rfl hhold
  simp [triggerRun, hstep, hheld]

/-! ## Aim resolver (src/unnamed/part_001 lines 260-287)

```
let closestDist = Infinity;
let closestTarget = null;
const magnetismThreshold = 3.0;
targetsRef.current.forEach(target => {
  const targetCenter = target.position.clone();
  const dist = ray.distanceSqToPoint(targetCenter);
  if (dist < closestDist && dist < magnetismThreshold) {
    closestDist = dist;
    closestTarget = target;
  }
});
```

The accumulator `(closestDist, closestTarget)` is `none` while no target has
qualified (`closestDist = Infinity`, against which `dist < closestDist` always
holds). -/
def aimStep (ray : Ray) (thr : ℚ) (acc : Option (ℚ × Target)) (t : Target) :
    Option (ℚ × Target) :=
  let dist := ray.distanceSqToPoint t.pos
  match acc with
  | none => if dist < thr then some (dist, t) else none
  | some (cd, c) => if dist < cd ∧ dist < thr then some (dist, t) else some (cd, c)

/-- The `forEach` loop above, as a left fold over the target list. -/
def aimLoop (ray : Ray) (thr : ℚ) : Option (ℚ × Target) → List Target → Option (ℚ × Target)
  | acc, [] => acc
  | acc, t :: rest => aimLoop ray thr (aimStep ray thr acc t) rest

/-- The magnetic aim assist: the locked target (with its squared distance to
the aim ray), or `none` when no target qualifies. -/
def aimAssist (ray : Ray) (thr : ℚ) (ts : List Target) : Option (ℚ × Target) :=
  aimLoop ray thr none ts

lemma aimLoop_eq_none (ray : Ray) (thr : ℚ) :
    ∀ (ts : List Target) (acc : Option (ℚ × Target)),
      aimLoop ray thr acc ts = none ↔
        (acc = none ∧ ∀ u ∈ ts, ¬ ray.distanceSqToPoint u.pos < thr) := by
  intro ts
  induction ts with
  | nil => intro acc; simp [aimLoop]
  | cons v tl ih =>
    intro acc
    rw [aimLoop, ih]
    have hstep : aimStep ray thr acc v = none ↔
        (acc = none ∧ ¬ ray.distanceSqToPoint v.pos < thr) := by
      cases acc with
      | none => by_cases hv : ray.distanceSqToPoint v.pos < thr <;> simp [aimStep, hv]
      | some p => obtain ⟨cd, c⟩ := p; by_cases hv : ray.distanceSqToPoint v.pos < cd ∧
          ray.distanceSqToPoint v.pos < thr <;> simp [aimStep, hv]
    rw [hstep]
    constructor
    · rintro ⟨⟨hacc, hv⟩, htl⟩
      refine ⟨hacc, fun u hu => ?_⟩
      rcases List.mem_cons.mp hu with h | h
      · exact h ▸ hv
      · exact htl u h
    · rintro ⟨hacc, hall⟩
      exact ⟨⟨hacc, hall v (List.mem_cons_self _ _)⟩, fun u hu => hall u (List.mem_cons_of_mem _ hu)⟩

lemma aimLoop_eq_some (ray : Ray) (thr : ℚ) :
    ∀ (ts : List Target) (acc : Option (ℚ × Target)) (d : ℚ) (t : Target),
      aimLoop ray thr acc ts = some (d, t) →
      ((acc = some (d, t)) ∨
        (t ∈ ts ∧ d = ray.distanceSqToPoint t.pos ∧ d < thr)) ∧
      (∀ u ∈ ts, ray.distanceSqToPoint u.pos < thr → d ≤ ray.distanceSqToPoint u.pos) ∧
      (∀ cd c, acc = some (cd, c) → d ≤ cd) := by
  intro ts
  induction ts with
  | nil =>
    intro acc d t h
    simp [aimLoop] at h
    subst h
    refine ⟨Or.inl rfl, by simp, ?_⟩
    intro cd c hc
    simp at hc
    exact le_of_eq hc.1
  | cons v tl ih =>
    intro acc d t h
    rw [aimLoop] at h
    obtain ⟨h1, h2, h3⟩ := ih (aimStep ray thr acc v) d t h
    have hdv : ∀ cd c, aimStep ray thr acc v = some (cd, c) → d ≤ cd := h3
    cases acc with
    | none =>
      by_cases hv : ray.distanceSqToPoint v.pos < thr
      · have hs : aimStep ray thr none v = some (ray.distanceSqToPoint v.pos, v) := by
          simp [aimStep, hv]
        have hd_le : d ≤ ray.distanceSqToPoint v.pos := hdv _ _ hs
        refine ⟨?_, ?_, ?_⟩
        · rcases h1 with h1 | h1
          · rw [hs] at h1
            obtain ⟨hd, ht⟩ := Prod.mk.injEq _ _ _ _ ▸ (Option.some.injEq _ _ ▸ h1)
            exact Or.inr ⟨by simp [← ht], by rw [← ht, hd], hd ▸ hv⟩
          · exact Or.inr ⟨List.mem_cons_of_mem _ h1.1, h1.2.1, h1.2.2⟩
        · intro u hu hq
          rcases List.mem_cons.mp hu with h | h
          · exact h ▸ hd_le
          · exact h2 u h hq
        · intro cd c hc; simp at hc
      · have hs : aimStep ray thr none v = none := by simp [aimStep, hv]
        rw [hs] at h1 h3
        refine ⟨?_, ?_, ?_⟩
        · rcases h1 with h1 | h1
          · simp at h1
          · exact Or.inr ⟨List.mem_cons_of_mem _ h1.1, h1.2.1, h1.2.2⟩
        · intro u hu hq
          rcases List.mem_cons.mp hu with h | h
          · exact absurd (h ▸ hq) hv
          · exact h2 u h hq
        · intro cd c hc; simp at hc
    | some p =>
      obtain ⟨cd0, c0⟩ := p
      by_cases hv : ray.distanceSqToPoint v.pos < cd0 ∧ ray.distanceSqToPoint v.pos < thr
      · have hs : aimStep ray thr (some (cd0, c0)) v = some (ray.distanceSqToPoint v.pos, v) := by
          simp [aimStep, hv.1, hv.2]
        have hd_le : d ≤ ray.distanceSqToPoint v.pos := hdv _ _ hs
        refine ⟨?_, ?_, ?_⟩
        · rcases h1 with h1 | h1
          · rw [hs] at h1
            obtain ⟨hd, ht⟩ := Prod.mk.injEq _ _ _ _ ▸ (Option.some.injEq _ _ ▸ h1)
            exact Or.inr ⟨by simp [← ht], by rw [← ht, hd], hd ▸ hv.2⟩
          · exact Or.inr ⟨List.mem_cons_of_mem _ h1.1, h1.2.1, h1.2.2⟩
        · intro u hu hq
          rcases List.mem_cons.mp hu with h | h
          · exact h ▸ hd_le
          · exact h2 u h hq
        · intro cd c hc
          obtain ⟨hcd, _⟩ := Prod.mk.injEq _ _ _ _ ▸ (Option.some.injEq _ _ ▸ hc)
          exact le_of_lt (lt_of_le_of_lt hd_le (hcd ▸ hv.1))
      · have hs : aimStep ray thr (some (cd0, c0)) v = some (cd0, c0) := by
          simp only [aimStep]
          rw [if_neg hv]
        have hd_le : d ≤ cd0 := hdv _ _ hs
        rw [hs] at h1
        refine ⟨?_, ?_, ?_⟩
        · rcases h1 with h1 | h1
          · exact Or.inl h1
          · exact Or.inr ⟨List.mem_cons_of_mem _ h1.1, h1.2.1, h1.2.2⟩
        · intro u hu hq
          rcases List.mem_cons.mp hu with h | h
          · subst h
            have : ¬ ray.distanceSqToPoint u.pos < cd0 := fun hlt => hv ⟨hlt, hq⟩
            exact le_trans hd_le (le_of_not_lt this)
          · exact h2 u h hq
        · intro cd c hc
          obtain ⟨hcd, _⟩ := Prod.mk.injEq _ _ _ _ ▸ (Option.some.injEq _ _ ▸ hc)
          exact hcd ▸ hd_le

/-! ## Claim C1: aim-assist determinism -/

/-- C1 [confirmed].  For every fixed aim ray and fixed list of targets: the
resolver locks no target exactly when no target has squared point-to-ray
distance below the magnetism threshold; and when it locks `(d, t)`, then `t`
is one of the targets, `d` is its squared distance to the ray, `d` is below
the threshold, and `d` is minimal among the squared distances of all targets
below the threshold (so the lock achieves the minimum qualifying distance). -/
theorem aim_assist_locks_min (ray : Ray) (thr : ℚ) (ts : List Target) :
    (aimAssist ray thr ts = none ↔
      ∀ u ∈ ts, ¬ ray.distanceSqToPoint u.pos < thr) ∧
    (∀ d t, aimAssist ray thr ts = some (d, t) →
      t ∈ ts ∧ d = ray.distanceSqToPoint t.pos ∧ d < thr ∧
      ∀ u ∈ ts, ray.distanceSqToPoint u.pos < thr → d ≤ ray.distanceSqToPoint u.pos) := by
  constructor
  · rw [aimAssist, aimLoop_eq_none]
    simp
  · intro d t h
    obtain ⟨h1, h2, _⟩ := aimLoop_eq_some ray thr ts none d t h
    rcases h1 with h1 | h1
    · simp at h1
    · exact ⟨h1.1, h1.2.1, h1.2.2, h2⟩

/-- Witness for C1, the spec's own scenario: target at `(0,0,-20)`, ray
origin `(0,0,10)`, direction `(0,0,-1)`, squared magnetism threshold `3`:
the squared point-to-ray distance is `0`, so that target is locked. -/
theorem aim_assist_locks_min_witness :
    (⟨0, ⟨0, 0, -20⟩, ⟨0, 0, 0⟩⟩ : Target) ∈ [(⟨0, ⟨0, 0, -20⟩, ⟨0, 0, 0⟩⟩ : Target)] ∧
    (0 : ℚ) = Ray.distanceSqToPoint ⟨⟨0, 0, 10⟩, ⟨0, 0, -1⟩⟩ ⟨0, 0, -20⟩ ∧
    (0 : ℚ) < 3 ∧
    ∀ u ∈ [(⟨0, ⟨0, 0, -20⟩, ⟨0, 0, 0⟩⟩ : Target)],
      Ray.distanceSqToPoint ⟨⟨0, 0, 10⟩, ⟨0, 0, -1⟩⟩ u.pos < 3 →
      (0 : ℚ) ≤ Ray.distanceSqToPoint ⟨⟨0, 0, 10⟩, ⟨0, 0, -1⟩⟩ u.pos := by
  exact (aim_assist_locks_min ⟨⟨0, 0, 10⟩, ⟨0, 0, -1⟩⟩ 3
      [⟨0, ⟨0, 0, -20⟩, ⟨0, 0, 0⟩⟩]).2 0 ⟨0, ⟨0, 0, -20⟩, ⟨0, 0, 0⟩⟩
    (by norm_num [aimAssist, aimLoop, aimStep, Ray.distanceSqToPoint, Vec3.sub, Vec3.dot,
      Vec3.addScaled, Vec3.distanceToSquared])

/-! ## The per-tick game loop (src/unnamed/part_001 lines 196-364, Playing branch)

The loop runs: (1) probabilistic spawning, (2) target advance and passive
miss retirement, (3) hand interaction — aim assist, trigger, shooting.
Randomness (the spawn draw and the spawned target's parameters) and the
camera-derived aim ray enter the model as tick inputs. -/

/-- Feedback events emitted by one tick, in emission order: `shot` for
`generateSound('shoot')` on an accepted fire, `hit` for a confirmed hit
(`generateSound('hit')` plus the `"HEADSHOT"` floating text, carrying the
destroyed target's world position, which the presentation layer projects to
the screen), `miss` for a passive depth-miss (`generateSound('miss')` plus
the `"MISS"` floating text at the passed target's world position). -/
inductive FeedbackEvent where
  | shot : FeedbackEvent
  | hit : Vec3 → FeedbackEvent
  | miss : Vec3 → FeedbackEvent
deriving DecidableEq, Repr

/-- Whether an event is a confirmed-hit event. -/
def FeedbackEvent.isHit : FeedbackEvent → Bool
  | FeedbackEvent.hit _ => true
  | _ => false

/-- The hand data one tick consumes: the aim ray built by
`raycaster.setFromCamera(new THREE.Vector2(ndcX, ndcY), camera)` from the
index-fingertip ndc coordinates, and the thumb-tip / index-MCP normalized
coordinates feeding the pinch metric. -/
structure Frame where
  ray : Ray
  thumbX : ℚ
  thumbY : ℚ
  mcpX : ℚ
  mcpY : ℚ
deriving DecidableEq, Repr

/-- Squared pinch metric:
`Math.hypot(thumbTip.x - indexMCP.x, thumbTip.y - indexMCP.y)` squared. -/
def pinchSqOf (f : Frame) : ℚ := (f.thumbX - f.mcpX) ^ 2 + (f.thumbY - f.mcpY) ^ 2

/-- One tick's inputs: the clock delta `dt` (seconds), the outcome of the
spawn draw (`some t` when `Math.random() < 0.05` produced target `t`, else
`none`), the latest landmark frame (`none` = no hand visible), and
`Date.now()` in milliseconds. -/
structure TickInput where
  dt : ℚ
  spawn : Option Target
  frame : Option Frame
  now : ℤ
deriving DecidableEq, Repr

/-- The tuning constants of one source variant.  `triggerThresholdSq` is the
squared pinch threshold. -/
structure Config where
  magnetism : ℚ
  triggerThresholdSq : ℚ
  cooldown : ℤ
  missZ : ℚ
  capacity : ℕ
deriving DecidableEq, Repr

/-- Constants of `src/unnamed/part_001`: magnetism threshold 3.0, pinch
threshold 0.08, cooldown 250 ms, miss depth z > 8, soft cap 4. -/
def part001Config : Config := ⟨3, (8/100) ^ 2, 250, 8, 4⟩

/-- Constants of `src/components/ARGame.tsx` variant 1 (`onResults`):
magnetism threshold 2.5, pinch threshold 0.06, cooldown 200 ms, miss depth
z > 5, cap 4. -/
def variant1Config : Config := ⟨5/2, (6/100) ^ 2, 200, 5, 4⟩

/-- Constants of `src/components/ARGame.tsx` variant 2 (`loop`): magnetism
threshold 3.0, pinch threshold 0.12, cooldown 120 ms, miss depth z > 5,
cap 4. -/
def variant2Config : Config := ⟨3, (12/100) ^ 2, 120, 5, 4⟩

/-- The game-logic state held in refs: `targetsRef.current`,
`scoreRef.current`, and the trigger refs. -/
structure GameState where
  targets : List Target
  score : ℕ
  trigger : TriggerState
deriving DecidableEq, Repr

/-- Spawn phase:
`if (targetsRef.current.length < 4) { if (Math.random() < 0.05) spawnTarget(); }`,
with the random draw's outcome supplied as `spawn`. -/
def spawnPhase (cap : ℕ) (targets : List Target) (spawn : Option Target) : List Target :=
  if targets.length < cap then targets ++ spawn.toList else targets

/-- Advance one target:
`target.position.add(target.userData.velocity.clone().multiplyScalar(dt))`.
The decorative rotation/pulse updates do not touch gameplay state. -/
def moveTarget (dt : ℚ) (t : Target) : Target :=
  { t with pos := ⟨t.pos.x + t.vel.x * dt, t.pos.y + t.vel.y * dt, t.pos.z + t.vel.z * dt⟩ }

/-- The spawn-adjusted, advanced target list of one tick. -/
def movedOf (cfg : Config) (s : GameState) (inp : TickInput) : List Target :=
  (spawnPhase cfg.capacity s.targets inp.spawn).map (moveTarget inp.dt)

/-- Targets surviving the passive miss check `if (target.position.z > 8)`. -/
def survivorsOf (cfg : Config) (s : GameState) (inp : TickInput) : List Target :=
  (movedOf cfg s inp).filter (fun t => ! decide (cfg.missZ < t.pos.z))

/-- Targets retired by the passive miss check this tick. -/
def missedOf (cfg : Config) (s : GameState) (inp : TickInput) : List Target :=
  (movedOf cfg s inp).filter (fun t => decide (cfg.missZ < t.pos.z))

/-- Miss events of this tick.  The source iterates the array downwards
(`for (let i = length - 1; i >= 0; i--)`) and splices as it goes, so the
events come out in reverse list order. -/
def missEventsOf (cfg : Config) (s : GameState) (inp : TickInput) : List FeedbackEvent :=
  (missedOf cfg s inp).reverse.map (fun t => FeedbackEvent.miss t.pos)

/-- The aim-assist lock of this tick, computed over the post-retirement
target list (the source mutates `targetsRef.current` in phase 2 before the
`forEach` of the aim assist runs). -/
def lockOf (cfg : Config) (s : GameState) (inp : TickInput) (f : Frame) : Option (ℚ × Target) :=
  aimAssist f.ray cfg.magnetism (survivorsOf cfg s inp)

/-- Whether this tick produces a confirmed hit: an accepted fire
(`isShooting`) while the aim assist holds a lock. -/
def confirmedHit (cfg : Config) (s : GameState) (inp : TickInput) : Bool :=
  match inp.frame with
  | none => false
  | some f =>
    (triggerStep cfg.triggerThresholdSq cfg.cooldown s.trigger (pinchSqOf f) inp.now).2.2 &&
      (lockOf cfg s inp f).isSome

/-- One full Playing tick of the loop, returning the new game state and the
feedback events in emission order.  With no landmark frame the hand branch is
skipped entirely (the source's `else` only hides the reticle and laser): the
trigger state is left untouched.  On an accepted fire with a lock, the locked
target is removed (`filter(t => t !== closestTarget)`, object identity
modelled by `id`), the score is incremented and reported, and shot and hit
feedback are emitted; on an accepted fire without a lock only shot feedback
is emitted. -/
def tick (cfg : Config) (s : GameState) (inp : TickInput) : GameState × List FeedbackEvent :=
  let survivors := survivorsOf cfg s inp
  let missEvents := missEventsOf cfg s inp
  match inp.frame with
  | none => ({ targets := survivors, score := s.score, trigger := s.trigger }, missEvents)
  | some f =>
    let lock := lockOf cfg s inp f
    let step := triggerStep cfg.triggerThresholdSq cfg.cooldown s.trigger (pinchSqOf f) inp.now
    if step.2.2 then
      match lock with
      | some (_, t) =>
        ({ targets := survivors.filter (fun u => u.id != t.id),
           score := s.score + 1, trigger := step.1 },
         missEvents ++ [FeedbackEvent.shot, FeedbackEvent.hit t.pos])
      | none =>
        ({ targets := survivors, score := s.score, trigger := step.1 },
         missEvents ++ [FeedbackEvent.shot])
    else ({ targets := survivors, score := s.score, trigger := step.1 }, missEvents)

/-- Iterate the tick over a list of inputs. -/
def runTicks (cfg : Config) (s : GameState) (inps : List TickInput) : GameState :=
  inps.foldl (fun g i => (tick cfg g i).1) s

/-! ## Session controller (src/App.tsx)

`App` keeps the coarse state (`MENU = 0`, `PLAYING = 1`, `GAME_OVER = 2`) and
the displayed score in React state; the `ARGame` component stays mounted
throughout, so its refs (`targetsRef`, `scoreRef`, trigger refs) persist
across session transitions — the effect re-run on a `gameState` change never
resets them. -/

/-- App-level React state: `gameState` and the displayed `score`. -/
structure AppState where
  gameState : ℕ
  score : ℕ
deriving DecidableEq, Repr

/-- The whole system: App state plus the persistent game refs. -/
structure SystemState where
  app : AppState
  game : GameState
deriving DecidableEq, Repr

/-- `startGame` (src/App.tsx lines 16-20): `setScore(0)` and
`setGameState(GameState.PLAYING)`.  Nothing touches the refs inside
`ARGame`. -/
def startGame (s : SystemState) : SystemState :=
  ⟨⟨1, 0⟩, s.game⟩

/-- One tick at the system level: the loop body runs its game logic only when
`gameState === 1`; a confirmed hit calls `onScoreUpdate(scoreRef.current)`,
which sets the displayed score. -/
def systemTick (cfg : Config) (s : SystemState) (inp : TickInput) : SystemState × List FeedbackEvent :=
  if s.app.gameState = 1 then
    let r := tick cfg s.game inp
    let app := if confirmedHit cfg s.game inp then AppState.mk s.app.gameState r.1.score
      else s.app
    (⟨app, r.1⟩, r.2)
  else (s, [])

/-! ## The ndc mappings of the three variants

Variant 1 (`src/components/ARGame.tsx` line 200) and the canonical variant
(`src/unnamed/part_001` line 253) both compute
`const ndcX = (1 - indexTip.x) * 2 - 1`; variant 2
(`src/components/ARGame.tsx` line 903) computes
`const ndcX = -(1 - indexTip.x) * 2 + 1`. -/

/-- `ndcX` of variant 1 (`onResults`), selfie-flipped. -/
def ndcX_variant1 (x : ℚ) : ℚ := (1 - x) * 2 - 1

/-- `ndcX` of variant 2 (`loop` in ARGame.tsx). -/
def ndcX_variant2 (x : ℚ) : ℚ := -(1 - x) * 2 + 1

/-- `ndcX` of the canonical variant (`src/unnamed/part_001`). -/
def ndcX_part001 (x : ℚ) : ℚ := (1 - x) * 2 - 1

/-- The mapping the spec prescribes for a selfie (mirrored) feed:
`ndcX = (1 - x)*2 - 1`. -/
def ndcX_specFormula (x : ℚ) : ℚ := (1 - x) * 2 - 1

/-! ## Claim C2: edge-trigger correctness -/

/-- C2 [confirmed].  A continuous pinch (squared metric below the squared
threshold) held for `N = 1 + run.length` ticks, the metric having been above
the threshold on the preceding tick `(d0, t0)`, produces exactly one fire
event — the engage edge, the trigger-pull event of the source before rate
limiting — and it occurs on the first tick of the run, regardless of `N`:
the output trace is `(no edge, no fire)` on the preceding tick, `(edge,
fired-iff-cooldown-elapsed)` on the first tick of the run, and `(no edge, no
fire)` on every later tick of the run. -/
theorem edge_trigger_once (thrSq : ℚ) (cd : ℤ) (s : TriggerState) (d0 : ℚ) (t0 : ℤ)
    (d1 : ℚ) (t1 : ℤ) (run : List (ℚ × ℤ))
    (h0 : ¬ d0 < thrSq) (h1 : d1 < thrSq) (hrun : ∀ p ∈ run, p.1 < thrSq) :
    (triggerRun thrSq cd s ((d0, t0) :: (d1, t1) :: run)).2 =
      (false, false) :: (true, decide (cd < t1 - s.lastShotTime)) ::
        List.replicate run.length (false, false) := by
  have hstep := triggerStep_not_engaged thrSq cd s d0 t0 h0
  have hcycle := triggerRun_cycle thrSq cd ⟨false, s.lastShotTime⟩ d1 t1 run rfl h1 hrun
  rw [triggerRun_cons_eq thrSq cd s _ _ d0 t0 _ _ _ hstep hcycle]

/-- Witness for C2: a pinch held for three ticks after a released tick, with
the cooldown elapsed, yields the trace with a single edge-and-fire on the
first engaged tick. -/
theorem edge_trigger_once_witness :
    (triggerRun (16/2500) 250 ⟨false, 0⟩
        [(1, 100), (0, 300), (0, 320), (0, 340)]).2 =
      [(false, false), (true, true), (false, false), (false, false)] := by
  have h := edge_trigger_once (16/2500) 250 ⟨false, 0⟩ 1 100 0 300 [(0, 320), (0, 340)]
    (by norm_num) (by norm_num) (by intro p hp; fin_cases hp <;> norm_num)
  simpa using h

/-! ## Claim C3: rate limiting across two pinch-release-pinch cycles -/

/-- C3 [confirmed].  Two pinch-release-pinch cycles: a first engage edge at
time `t1` (its cooldown already elapsed relative to the last accepted fire),
a held run, a released run, then a second engage edge at time `t2` with its
own held run.  If the two edges fall within one cooldown window
(`t2 - t1 ≤ cd`) exactly one accepted fire is produced; if they are separated
by more than the cooldown window, each cycle produces one.  Moreover the
final `lastShotTime` is the time of the last accepted fire, so the cooldown
is measured from the last accepted fire. -/
theorem rate_limit_two_cycles (thrSq : ℚ) (cd : ℤ) (s : TriggerState)
    (d1 : ℚ) (t1 : ℤ) (hold1 : List (ℚ × ℤ))
    (dR : ℚ) (uR : ℤ) (rel1 : List (ℚ × ℤ))
    (d2 : ℚ) (t2 : ℤ) (hold2 : List (ℚ × ℤ))
    (hs : s.isTriggered = false)
    (hd1 : d1 < thrSq) (hhold1 : ∀ p ∈ hold1, p.1 < thrSq)
    (hdR : ¬ dR < thrSq) (hrel1 : ∀ p ∈ rel1, ¬ p.1 < thrSq)
    (hd2 : d2 < thrSq) (hhold2 : ∀ p ∈ hold2, p.1 < thrSq)
    (hcool : cd < t1 - s.lastShotTime) :
    firedCount (triggerRun thrSq cd s
        (((d1, t1) :: hold1) ++ (((dR, uR) :: rel1) ++ ((d2, t2) :: hold2)))).2 =
      (if cd < t2 - t1 then 2 else 1) ∧
    (triggerRun thrSq cd s
        (((d1, t1) :: hold1) ++ (((dR, uR) :: rel1) ++ ((d2, t2) :: hold2)))).1.lastShotTime =
      (if cd < t2 - t1 then t2 else t1) := by
  have hseg1 := triggerRun_cycle thrSq cd s d1 t1 hold1 hs hd1 hhold1
  rw [if_pos hcool] at hseg1
  have hrel : triggerRun thrSq cd (⟨true, t1⟩ : TriggerState) ((dR, uR) :: rel1) =
      (⟨false, t1⟩, (false, false) :: List.replicate rel1.length (false, false)) :=
    triggerRun_cons_eq thrSq cd _ _ _ dR uR _ rel1 _
      (triggerStep_not_engaged thrSq cd ⟨true, t1⟩ dR uR hdR)
      (triggerRun_released thrSq cd rel1 ⟨false, t1⟩ rfl hrel1)
  have hseg3 := triggerRun_cycle thrSq cd (⟨false, t1⟩ : TriggerState) d2 t2 hold2 rfl hd2 hhold2
  have hBC := triggerRun_append_eq thrSq cd _ _ _ ((dR, uR) :: rel1) ((d2, t2) :: hold2) _ _
    hrel hseg3
  have hABC := triggerRun_append_eq thrSq cd _ _ _ ((d1, t1) :: hold1)
    (((dR, uR) :: rel1) ++ ((d2, t2) :: hold2)) _ _ hseg1 hBC
  rw [hABC]
  by_cases hc : cd < t2 - t1 <;>
    simp [hc, hcool, firedCount, List.countP_append, List.countP_cons, List.countP_replicate]

/-- Witness for C3: with a 250 ms cooldown, trigger state released with last
shot at time 0, cycles with edges at 300 and 450 (within one window) produce
one accepted fire, and the last-shot time stays at the first edge. -/
theorem rate_limit_two_cycles_witness :
    firedCount (triggerRun (16/2500) 250 ⟨false, 0⟩
        ([((0:ℚ), (300:ℤ)), (0, 320)] ++ ([(1, 400)] ++ [(0, 450), (0, 470)]))).2 = 1 ∧
    (triggerRun (16/2500) 250 ⟨false, 0⟩
        ([((0:ℚ), (300:ℤ)), (0, 320)] ++ ([(1, 400)] ++ [(0, 450), (0, 470)]))).1.lastShotTime = 300 := by
  have h := rate_limit_two_cycles (16/2500) 250 ⟨false, 0⟩ 0 300 [(0, 320)] 1 400 []
    0 450 [(0, 470)] rfl (by norm_num) (by intro p hp; fin_cases hp; norm_num)
    (by norm_num) (by intro p hp; simp at hp) (by norm_num)
    (by intro p hp; fin_cases hp; norm_num) (by norm_num)
  simpa using h

/-! ## Claim C10: a suppressed edge is discarded, not deferred -/

/-- C10 [confirmed].  If the engage edge at time `t1` arrives while the
cooldown since the last accepted fire has not yet elapsed, the edge is
discarded: no fire event is emitted on that tick nor on any later tick of the
same continuous pinch (the held ticks carry arbitrary times, so this includes
ticks after the cooldown expires), and the last-shot time is unchanged.  The
flag ends `true`, so only a release and re-engage can fire again. -/
theorem suppressed_edge_discarded (thrSq : ℚ) (cd : ℤ) (s : TriggerState)
    (d1 : ℚ) (t1 : ℤ) (hold : List (ℚ × ℤ))
    (hs : s.isTriggered = false) (hd1 : d1 < thrSq)
    (hhold : ∀ p ∈ hold, p.1 < thrSq)
    (hcool : ¬ cd < t1 - s.lastShotTime) :
    firedCount (triggerRun thrSq cd s ((d1, t1) :: hold)).2 = 0 ∧
    (triggerRun thrSq cd s ((d1, t1) :: hold)).1 = ⟨true, s.lastShotTime⟩ := by
  have h := triggerRun_cycle thrSq cd s d1 t1 hold hs hd1 hhold
  rw [if_neg hcool] at h
  rw [h]
  simp [firedCount, List.countP_cons, List.countP_replicate, hcool]

/-- Witness for C10: an edge at time 100 with last shot at 0 and cooldown 250
is suppressed, and the pinch held through times 400 and 99999 — long after
the cooldown expired — never fires; the last-shot time stays 0. -/
theorem suppressed_edge_discarded_witness :
    firedCount (triggerRun (16/2500) 250 ⟨false, 0⟩
        [((0:ℚ), (100:ℤ)), (0, 400), (0, 99999)]).2 = 0 ∧
    (triggerRun (16/2500) 250 ⟨false, 0⟩
        [((0:ℚ), (100:ℤ)), (0, 400), (0, 99999)]).1 = ⟨true, 0⟩ := by
  have h := suppressed_edge_discarded (16/2500) 250 ⟨false, 0⟩ 0 100 [(0, 400), (0, 99999)]
    rfl (by norm_num) (by intro p hp; fin_cases hp <;> norm_num) (by norm_num)
  simpa using h

/-! ### Shared tick lemmas -/

/-- The score after a tick is the score before plus one exactly on a
confirmed hit. -/
lemma tick_score (cfg : Config) (s : GameState) (inp : TickInput) :
    (tick cfg s inp).1.score = s.score + (if confirmedHit cfg s inp then 1 else 0) := by
  cases hf : inp.frame with
  | none => simp [tick, confirmedHit, hf]
  | some f =>
    cases hfd : (triggerStep cfg.triggerThresholdSq cfg.cooldown s.trigger (pinchSqOf f) inp.now).2.2 with
    | false => simp [tick, confirmedHit, hf, hfd]
    | true =>
      cases hlock : lockOf cfg s inp f with
      | none => simp [tick, confirmedHit, hf, hfd, hlock]
      | some p => obtain ⟨d, t⟩ := p; simp [tick, confirmedHit, hf, hfd, hlock]

/-- Targets present after a tick all survived the passive miss check. -/
lemma tick_targets_subset (cfg : Config) (s : GameState) (inp : TickInput) :
    ∀ u ∈ (tick cfg s inp).1.targets, u ∈ survivorsOf cfg s inp := by
  intro u hu
  cases hf : inp.frame with
  | none => simpa [tick, hf] using hu
  | some f =>
    cases hfd : (triggerStep cfg.triggerThresholdSq cfg.cooldown s.trigger (pinchSqOf f) inp.now).2.2 with
    | false => simpa [tick, hf, hfd] using hu
    | true =>
      cases hlock : lockOf cfg s inp f with
      | none => simpa [tick, hf, hfd, hlock] using hu
      | some p =>
        obtain ⟨d, t⟩ := p
        simp [tick, hf, hfd, hlock] at hu
        exact hu.1

/-- Every tick's event list starts with this tick's passive-miss events. -/
lemma tick_events_miss_first (cfg : Config) (s : GameState) (inp : TickInput) :
    ∃ rest, (tick cfg s inp).2 = missEventsOf cfg s inp ++ rest := by
  cases hf : inp.frame with
  | none => exact ⟨[], by simp [tick, hf]⟩
  | some f =>
    cases hfd : (triggerStep cfg.triggerThresholdSq cfg.cooldown s.trigger (pinchSqOf f) inp.now).2.2 with
    | false => exact ⟨[], by simp [tick, hf, hfd]⟩
    | true =>
      cases hlock : lockOf cfg s inp f with
      | none => exact ⟨[FeedbackEvent.shot], by simp [tick, hf, hfd, hlock]⟩
      | some p =>
        obtain ⟨d, t⟩ := p
        exact ⟨[FeedbackEvent.shot, FeedbackEvent.hit t.pos], by simp [tick, hf, hfd, hlock]⟩

/-- A passive-miss event list never contains a shot or hit event. -/
lemma missEvents_only_miss (cfg : Config) (s : GameState) (inp : TickInput) :
    FeedbackEvent.shot ∉ missEventsOf cfg s inp ∧
    ∀ p, FeedbackEvent.hit p ∉ missEventsOf cfg s inp := by
  constructor
  · simp [missEventsOf]
  · intro p; simp [missEventsOf]

/-! ## Claim C4: no-hand handling of the trigger flag -/

/-- C4 [corrected: counterexample].  The claim says a tick with no landmark
frame resets the pinching flag to false.  It does not: the source's no-hand
branch only hides the reticle and laser, so a tick processed with
`isTriggered = true` and no frame ends with the flag still `true`. -/
theorem no_hand_reset_counterexample :
    (tick part001Config ⟨[], 0, ⟨true, 0⟩⟩ ⟨0, none, none, 1000⟩).1.trigger.isTriggered ≠ false := by
  simp [tick]

/-- C4 [corrected: amended].  On a tick with no landmark frame the trigger
state (including the pinching flag) is left unchanged, not reset, and no
shot is fired; consequently a pinch engaged before hand loss persists across
the hand-lost ticks and, still being engaged, suppresses the fire when the
hand reappears pinching, until a released frame is seen. -/
theorem no_hand_leaves_trigger (cfg : Config) (s : GameState) (inp : TickInput)
    (h : inp.frame = none) :
    (tick cfg s inp).1.trigger = s.trigger ∧
    FeedbackEvent.shot ∉ (tick cfg s inp).2 := by
  refine ⟨by simp [tick, h], ?_⟩
  simp only [tick, h]
  exact (missEvents_only_miss cfg s inp).1

/-- Witness for C4's amended theorem at a concrete no-hand tick with the
flag set. -/
theorem no_hand_leaves_trigger_witness :
    (tick part001Config ⟨[], 3, ⟨true, 7⟩⟩ ⟨1, none, none, 500⟩).1.trigger =
      (⟨[], 3, ⟨true, 7⟩⟩ : GameState).trigger ∧
    FeedbackEvent.shot ∉ (tick part001Config ⟨[], 3, ⟨true, 7⟩⟩ ⟨1, none, none, 500⟩).2 :=
  no_hand_leaves_trigger part001Config ⟨[], 3, ⟨true, 7⟩⟩ ⟨1, none, none, 500⟩ rfl

/-! ## Claim C5: score monotonicity -/

/-- C5 [confirmed].  During Playing, the score after any tick is the score
before plus one exactly when that tick carries a confirmed hit (an accepted
fire while a target is locked), and otherwise unchanged; hence over any
sequence of Playing ticks the score is non-decreasing. -/
theorem score_monotone_per_hit (cfg : Config) :
    (∀ s inp, (tick cfg s inp).1.score =
      s.score + (if confirmedHit cfg s inp then 1 else 0)) ∧
    (∀ s inps, s.score ≤ (runTicks cfg s inps).score) := by
  refine ⟨fun s inp => tick_score cfg s inp, ?_⟩
  intro s inps
  induction inps generalizing s with
  | nil => simp [runTicks]
  | cons i rest ih =>
    have h1 : s.score ≤ (tick cfg s i).1.score := by
      rw [tick_score]
      split
      · exact Nat.le_succ _
      · exact le_refl _
    exact le_trans h1 (ih (tick cfg s i).1)

/-! ## Claim C6: what start() resets -/

/-- C6 [corrected: counterexample].  `startGame` does not clear the target
population nor the internal score counter: starting from a game-over state
with internal score 5 and one leftover target, the target survives
`startGame`, the internal score is still 5, and the first confirmed hit
after the restart reports a displayed score of 6, not 1. -/
theorem start_reset_counterexample :
    (startGame ⟨⟨2, 5⟩, ⟨[⟨0, ⟨0, 0, -20⟩, ⟨0, 0, 0⟩⟩], 5, ⟨false, 0⟩⟩⟩).game.targets ≠ [] ∧
    (startGame ⟨⟨2, 5⟩, ⟨[⟨0, ⟨0, 0, -20⟩, ⟨0, 0, 0⟩⟩], 5, ⟨false, 0⟩⟩⟩).game.score ≠ 0 ∧
    confirmedHit part001Config
      (startGame ⟨⟨2, 5⟩, ⟨[⟨0, ⟨0, 0, -20⟩, ⟨0, 0, 0⟩⟩], 5, ⟨false, 0⟩⟩⟩).game
      ⟨0, none, some ⟨⟨⟨0, 0, 10⟩, ⟨0, 0, -1⟩⟩, 0, 0, 0, 0⟩, 1000⟩ = true ∧
    (systemTick part001Config
      (startGame ⟨⟨2, 5⟩, ⟨[⟨0, ⟨0, 0, -20⟩, ⟨0, 0, 0⟩⟩], 5, ⟨false, 0⟩⟩⟩)
      ⟨0, none, some ⟨⟨⟨0, 0, 10⟩, ⟨0, 0, -1⟩⟩, 0, 0, 0, 0⟩, 1000⟩).1.app.score = 6 := by
  refine ⟨by simp [startGame], by simp [startGame], ?_, ?_⟩ <;>
    norm_num [startGame, systemTick, tick, confirmedHit, lockOf, survivorsOf, movedOf,
      missedOf, missEventsOf, spawnPhase, moveTarget, aimAssist, aimLoop, aimStep,
      Ray.distanceSqToPoint, Vec3.sub, Vec3.dot, Vec3.addScaled, Vec3.distanceToSquared,
      pinchSqOf, triggerStep, part001Config]

/-- C6 [corrected: amended].  `startGame` sets the session to Playing and
resets the displayed (App-level) score to 0, but leaves the `ARGame` refs —
the internal score counter and the target population — unchanged; a
subsequent confirmed hit therefore yields previous internal score + 1, not
1, and every pre-existing target is still present. -/
theorem start_keeps_internal_state (cfg : Config) (s : SystemState) (inp : TickInput) :
    (startGame s).app.score = 0 ∧
    (startGame s).app.gameState = 1 ∧
    (startGame s).game = s.game ∧
    (tick cfg (startGame s).game inp).1.score =
      s.game.score + (if confirmedHit cfg s.game inp then 1 else 0) :=
  ⟨rfl, rfl, rfl, tick_score cfg s.game inp⟩

/-! ## Claim C7: retirement by passive depth-miss -/

/-- C7 [confirmed].  On any tick, a target of the (spawn-adjusted) population
whose advanced position has forward coordinate beyond the pass-the-player
depth threshold is removed (no target with its identity remains), a miss
feedback event is raised carrying its advanced position (from which the
presentation layer computes the screen projection), and the score is
untouched by the removal: it still changes exactly with the tick's confirmed
hit, if any.  Identities are assumed unique, as JavaScript object identity
is. -/
theorem miss_retirement (cfg : Config) (s : GameState) (inp : TickInput) (t : Target)
    (hnodup : ((spawnPhase cfg.capacity s.targets inp.spawn).map Target.id).Nodup)
    (hmem : t ∈ spawnPhase cfg.capacity s.targets inp.spawn)
    (hz : cfg.missZ < (moveTarget inp.dt t).pos.z) :
    (∀ u ∈ (tick cfg s inp).1.targets, u.id ≠ t.id) ∧
    FeedbackEvent.miss (moveTarget inp.dt t).pos ∈ (tick cfg s inp).2 ∧
    (tick cfg s inp).1.score = s.score + (if confirmedHit cfg s inp then 1 else 0) := by
  refine ⟨?_, ?_, tick_score cfg s inp⟩
  · intro u hu hid
    have hsurv := tick_targets_subset cfg s inp u hu
    have hmoved := List.mem_filter.mp hsurv
    have hz_u : ¬ cfg.missZ < u.pos.z := by
      have := hmoved.2
      simpa using this
    obtain ⟨w, hw, hwu⟩ := List.mem_map.mp hmoved.1
    have hwid : w.id = t.id := by
      have : (moveTarget inp.dt w).id = w.id := rfl
      rw [← hwu] at hid
      exact hid
    have hwt : w = t := List.inj_on_of_nodup_map hnodup hw hmem hwid
    rw [hwt] at hwu
    rw [← hwu] at hz_u
    exact hz_u hz
  · obtain ⟨rest, hrest⟩ := tick_events_miss_first cfg s inp
    rw [hrest]
    apply List.mem_append_left
    apply List.mem_map.mpr
    refine ⟨moveTarget inp.dt t, ?_, rfl⟩
    apply List.mem_reverse.mpr
    apply List.mem_filter.mpr
    exact ⟨List.mem_map.mpr ⟨t, hmem, rfl⟩, by simpa using hz⟩

/-- Witness for C7, the spec's own scenario shape: a target at depth `z = 9`
(beyond the threshold 8) on a no-hand tick with `dt = 0` is removed with a
miss event and the score stays. -/
theorem miss_retirement_witness :
    (∀ u ∈ (tick part001Config ⟨[⟨0, ⟨0, 0, 9⟩, ⟨0, 0, 0⟩⟩], 0, ⟨false, 0⟩⟩
        ⟨0, none, none, 0⟩).1.targets, u.id ≠ (⟨0, ⟨0, 0, 9⟩, ⟨0, 0, 0⟩⟩ : Target).id) ∧
    FeedbackEvent.miss (moveTarget 0 ⟨0, ⟨0, 0, 9⟩, ⟨0, 0, 0⟩⟩).pos ∈
      (tick part001Config ⟨[⟨0, ⟨0, 0, 9⟩, ⟨0, 0, 0⟩⟩], 0, ⟨false, 0⟩⟩ ⟨0, none, none, 0⟩).2 ∧
    (tick part001Config ⟨[⟨0, ⟨0, 0, 9⟩, ⟨0, 0, 0⟩⟩], 0, ⟨false, 0⟩⟩ ⟨0, none, none, 0⟩).1.score =
      0 + (if confirmedHit part001Config ⟨[⟨0, ⟨0, 0, 9⟩, ⟨0, 0, 0⟩⟩], 0, ⟨false, 0⟩⟩
        ⟨0, none, none, 0⟩ then 1 else 0) :=
  miss_retirement part001Config ⟨[⟨0, ⟨0, 0, 9⟩, ⟨0, 0, 0⟩⟩], 0, ⟨false, 0⟩⟩ ⟨0, none, none, 0⟩
    ⟨0, ⟨0, 0, 9⟩, ⟨0, 0, 0⟩⟩ (by simp [spawnPhase, part001Config])
    (by simp [spawnPhase, part001Config])
    (by norm_num [moveTarget, part001Config])

/-! ## Claim C8: fire with no lock -/

/-- C8 [corrected: counterexample].  The claim says a tick with an accepted
fire and no lock emits only a shot event, removes no target and raises no
miss event.  A passive depth-miss on the same tick breaks this: with one
target at `z = 9` (beyond the threshold) and an accepted, lock-free fire,
the tick removes that target and raises a miss event alongside the shot. -/
theorem fire_no_lock_counterexample :
    (triggerStep part001Config.triggerThresholdSq part001Config.cooldown ⟨false, 0⟩
      (pinchSqOf ⟨⟨⟨0, 0, 10⟩, ⟨0, 0, -1⟩⟩, 0, 0, 0, 0⟩) 1000).2.2 = true ∧
    lockOf part001Config ⟨[⟨0, ⟨0, 0, 9⟩, ⟨0, 0, 0⟩⟩], 0, ⟨false, 0⟩⟩
      ⟨0, none, some ⟨⟨⟨0, 0, 10⟩, ⟨0, 0, -1⟩⟩, 0, 0, 0, 0⟩, 1000⟩
      ⟨⟨⟨0, 0, 10⟩, ⟨0, 0, -1⟩⟩, 0, 0, 0, 0⟩ = none ∧
    (tick part001Config ⟨[⟨0, ⟨0, 0, 9⟩, ⟨0, 0, 0⟩⟩], 0, ⟨false, 0⟩⟩
      ⟨0, none, some ⟨⟨⟨0, 0, 10⟩, ⟨0, 0, -1⟩⟩, 0, 0, 0, 0⟩, 1000⟩).2 =
      [FeedbackEvent.miss ⟨0, 0, 9⟩, FeedbackEvent.shot] ∧
    (tick part001Config ⟨[⟨0, ⟨0, 0, 9⟩, ⟨0, 0, 0⟩⟩], 0, ⟨false, 0⟩⟩
      ⟨0, none, some ⟨⟨⟨0, 0, 10⟩, ⟨0, 0, -1⟩⟩, 0, 0, 0, 0⟩, 1000⟩).1.targets = [] := by
  norm_num [tick, lockOf, survivorsOf, movedOf, missedOf, missEventsOf, spawnPhase,
    moveTarget, aimAssist, aimLoop, aimStep, pinchSqOf, triggerStep, part001Config]

/-- C8 [corrected: amended].  On a tick with an accepted fire and no lock,
the shooting logic emits only a shot event and removes nothing: the score is
unchanged, the population is exactly the passive-miss survivors, the event
list is the tick's passive-miss events followed by the single shot, and no
hit event is raised.  Passive depth-misses of the same tick still remove
their targets and raise their miss events. -/
theorem fire_no_lock_shot_only (cfg : Config) (s : GameState) (inp : TickInput) (f : Frame)
    (hf : inp.frame = some f)
    (hfired : (triggerStep cfg.triggerThresholdSq cfg.cooldown s.trigger (pinchSqOf f)
      inp.now).2.2 = true)
    (hlock : lockOf cfg s inp f = none) :
    (tick cfg s inp).1.score = s.score ∧
    (tick cfg s inp).1.targets = survivorsOf cfg s inp ∧
    (tick cfg s inp).2 = missEventsOf cfg s inp ++ [FeedbackEvent.shot] ∧
    ∀ p, FeedbackEvent.hit p ∉ (tick cfg s inp).2 := by
  refine ⟨by simp [tick, hf, hfired, hlock], by simp [tick, hf, hfired, hlock],
    by simp [tick, hf, hfired, hlock], ?_⟩
  intro p
  simp only [tick, hf, hfired, hlock]
  simp [missEventsOf]

/-- Witness for C8's amended theorem: empty population, engaged pinch,
cooldown elapsed — the tick emits exactly one shot event and nothing else. -/
theorem fire_no_lock_shot_only_witness :
    (tick part001Config ⟨[], 4, ⟨false, 0⟩⟩
      ⟨0, none, some ⟨⟨⟨0, 0, 10⟩, ⟨0, 0, -1⟩⟩, 0, 0, 0, 0⟩, 1000⟩).1.score =
      (⟨[], 4, ⟨false, 0⟩⟩ : GameState).score ∧
    (tick part001Config ⟨[], 4, ⟨false, 0⟩⟩
      ⟨0, none, some ⟨⟨⟨0, 0, 10⟩, ⟨0, 0, -1⟩⟩, 0, 0, 0, 0⟩, 1000⟩).1.targets =
      survivorsOf part001Config ⟨[], 4, ⟨false, 0⟩⟩
        ⟨0, none, some ⟨⟨⟨0, 0, 10⟩, ⟨0, 0, -1⟩⟩, 0, 0, 0, 0⟩, 1000⟩ ∧
    (tick part001Config ⟨[], 4, ⟨false, 0⟩⟩
      ⟨0, none, some ⟨⟨⟨0, 0, 10⟩, ⟨0, 0, -1⟩⟩, 0, 0, 0, 0⟩, 1000⟩).2 =
      missEventsOf part001Config ⟨[], 4, ⟨false, 0⟩⟩
        ⟨0, none, some ⟨⟨⟨0, 0, 10⟩, ⟨0, 0, -1⟩⟩, 0, 0, 0, 0⟩, 1000⟩ ++ [FeedbackEvent.shot] ∧
    ∀ p, FeedbackEvent.hit p ∉ (tick part001Config ⟨[], 4, ⟨false, 0⟩⟩
      ⟨0, none, some ⟨⟨⟨0, 0, 10⟩, ⟨0, 0, -1⟩⟩, 0, 0, 0, 0⟩, 1000⟩).2 :=
  fire_no_lock_shot_only part001Config ⟨[], 4, ⟨false, 0⟩⟩
    ⟨0, none, some ⟨⟨⟨0, 0, 10⟩, ⟨0, 0, -1⟩⟩, 0, 0, 0, 0⟩, 1000⟩
    ⟨⟨⟨0, 0, 10⟩, ⟨0, 0, -1⟩⟩, 0, 0, 0, 0⟩ rfl
    (by norm_num [triggerStep, pinchSqOf, part001Config])
    (by simp [lockOf, aimAssist, aimLoop, survivorsOf, movedOf, spawnPhase, part001Config])

/-! ## Claim C9: the ndc mapping -/

/-- C9 [corrected: counterexample].  The claim says every variant maps the
index-fingertip x under the selfie convention as `ndcX = (1 - x)*2 - 1`.
Variant 2 (ARGame.tsx `loop`, which also requests the `facingMode: 'user'`
selfie feed) does not: at `x = 0` it yields `-1` where the claimed formula
yields `1`. -/
theorem ndc_mapping_counterexample : ndcX_variant2 0 ≠ ndcX_specFormula 0 := by
  norm_num [ndcX_variant2, ndcX_specFormula]

/-- C9 [corrected: amended].  Variant 1 and the canonical part_001 variant
map the fingertip x exactly by the selfie formula `(1 - x)*2 - 1`; variant 2
maps it by the negation `-(1 - x)*2 + 1 = 2x - 1`, the non-mirrored mapping,
despite also using the selfie feed. -/
theorem ndc_mapping_variants (x : ℚ) :
    ndcX_variant1 x = ndcX_specFormula x ∧
    ndcX_part001 x = ndcX_specFormula x ∧
    ndcX_variant2 x = -(ndcX_specFormula x) ∧
    ndcX_variant2 x = 2 * x - 1 := by
  refine ⟨rfl, rfl, ?_, ?_⟩ <;>
    simp only [ndcX_variant2, ndcX_specFormula] <;> ring

end ARShooter
